import Mathlib

/-!
Shallow embedding of the job-scrape repository (jobscrape.py, lambda_function.py,
models.py).  Browser automation, S3 storage and SNS delivery are external
collaborators: a company's page fetch is modelled by a `FetchResult` input (the
page body text and the raw jobs extracted by the company's scraper class, or the
exception the fetch raised), S3 reads are explicit arguments and SNS publishes
are recorded as booleans in the result.  Everything that the Python code
computes from those inputs is translated function by function.
-/

/-- Python `needle in hay` on lists of characters: `subAt needle hay` is true
when `needle` is an initial segment of `hay`. -/
def subAt : List Char → List Char → Bool
  | [], _ => true
  | _ :: _, [] => false
  | a :: as, b :: bs => a == b && subAt as bs

/-- Whether `needle` occurs contiguously somewhere in `hay` — Python's `in`
operator on strings, after both are exploded to characters. -/
def containsSub (needle : List Char) : List Char → Bool
  | [] => subAt needle []
  | b :: bs => subAt needle (b :: bs) || containsSub needle bs

/-- Python's lexicographic string comparison, on exploded characters: equal
heads are skipped, the first differing pair is compared by code point, and a
list that runs out first is smaller. -/
def leChars : List Char → List Char → Bool
  | [], _ => true
  | _ :: _, [] => false
  | a :: as, b :: bs =>
    match a == b with
    | true => leChars as bs
    | false => decide (a.toNat < b.toNat)

/-- Python `s <= t` on strings (the order `sorted` uses). -/
def leStr (s t : String) : Bool :=
  leChars s.data t.data

/-- Python `s.lower()`: lower every character (modelled on the exploded
character list). -/
def lowerStr (s : String) : List Char :=
  s.data.map Char.toLower

/-- Python `needle.lower() in hay.lower()` — case-insensitive substring test,
the comparison the scraper uses everywhere. -/
def substr_ci (needle hay : String) : Bool :=
  containsSub (lowerStr needle) (lowerStr hay)

/-- models.py `JobPosting` (the fields the scrape logic reads). -/
structure JobPosting where
  title : String
  link : String
  id : String
deriving DecidableEq, Repr

/-- models.py `Company` — the fields the scrape logic reads.  Optional string
fields whose Python default is `None` are modelled as `String` with `""` for
"unset" (Python truthiness treats `None` and `""` alike), `jobs_page_class`
(a class or `None`) by its truthiness, and `relevant_search_terms`
(a list or `None`) as a `List String` with `[]` for "unset". -/
structure Company where
  name : String
  active : Bool := true
  jobs_page : String := ""
  jobs_page_class : Bool := false
  no_jobs_phrase : String := ""
  relevant_search_terms : List String := []
deriving DecidableEq, Repr

/-- models.py `JobsPageStatus`. -/
inductive JobsPageStatus where
  | SPECIFIC_NO_JOBS_PHRASE_FOUND
  | GENERIC_NO_JOBS_PHRASE_FOUND
  | NO_JOBS_PHRASE_NOT_FOUND_BUT_NO_JOBS
  | SOME_JOB_FOUND
deriving DecidableEq, Repr

/-- The outcome of the browser interaction for one company: the page body text
together with the raw jobs `company.jobs_page_class.get_jobs(driver)` would
return, or the exception message the fetch raised. -/
inductive FetchResult where
  | ok (body : String) (jobs : List JobPosting)
  | err (msg : String)
deriving DecidableEq, Repr

/-- jobscrape.py lines 109: the generic no-jobs phrase list. -/
def generic_no_jobs_phrases : List String :=
  ["No available positions", "No positions", "Sorry", "No job", "No current",
   "No open", "None available", "Don\x27t have", "don\x27t currently", "No openings"]

/-- jobscrape.py `has_jobs` (lines 100-111).  The page body text is passed in;
`driver.find_element(By.TAG_NAME, 'body').text.lower()` becomes
`lowerStr body`, and `phrase.lower() in all_text_lower` is `substr_ci phrase
body` (which lowers both sides).  Raising becomes `Except.error`. -/
def has_jobs (company : Company) (body : String) : Except String (Bool × JobsPageStatus) :=
  let all_text_lower := lowerStr body
  if all_text_lower == [] then
    .error (company.name ++ ": Error retrieving text")
  else if company.no_jobs_phrase ≠ "" then
    if substr_ci company.no_jobs_phrase body then
      .ok (false, .SPECIFIC_NO_JOBS_PHRASE_FOUND)
    else
      .ok (true, .NO_JOBS_PHRASE_NOT_FOUND_BUT_NO_JOBS)
  else
    let hj := generic_no_jobs_phrases.all (fun phrase => !(substr_ci phrase body))
    .ok (hj, if hj then .NO_JOBS_PHRASE_NOT_FOUND_BUT_NO_JOBS else .GENERIC_NO_JOBS_PHRASE_FOUND)

/-- jobscrape.py `title_is_relevant` (lines 113-117). -/
def title_is_relevant (company : Company) (title : String) (search_terms : List String) : Bool :=
  if company.relevant_search_terms ≠ [] then
    company.relevant_search_terms.any (fun search_term => substr_ci search_term title)
  else
    search_terms.any (fun search_term => substr_ci search_term title)

/-- jobscrape.py `get_company_relevant_jobs` (lines 80-98).  The driver calls
are represented by the `FetchResult`; a raised exception (from the fetch, from
`has_jobs` on an empty body, or the `"Scrape not implemented"` raise when the
company has no `jobs_page_class`) becomes `Except.error`. -/
def get_company_relevant_jobs (company : Company) (fetch : FetchResult)
    (search_terms : List String) : Except String (List JobPosting × JobsPageStatus) :=
  match fetch with
  | .err msg => .error msg
  | .ok body jobs =>
    match has_jobs company body with
    | .error e => .error e
    | .ok (company_has_jobs, jobs_page_status) =>
      if company_has_jobs then
        if company.jobs_page_class then
          let jobs_page_status' :=
            if jobs.length > 0 then JobsPageStatus.SOME_JOB_FOUND else jobs_page_status
          .ok (jobs.filter (fun job => title_is_relevant company job.title search_terms),
               jobs_page_status')
        else
          .error "Scrape not implemented"
      else
        .ok ([], jobs_page_status)

/-- jobscrape.py line 58: a company is skipped when `limit_company` is truthy
and its lowercase form does not occur in the lowercase company name. -/
def limitSkip (limit_company : Option String) (company : Company) : Bool :=
  match limit_company with
  | none => false
  | some s => s ≠ "" && !(substr_ci s company.name)

/-- The four accumulators of jobscrape.py `get_relevant_jobs`. -/
structure ScrapeResult where
  relevant_jobs : List (Company × JobPosting)
  skipped_companies : List String
  verify_no_jobs : List Company
  errors : List (String × String)
deriving DecidableEq, Repr

/-- The `for company in companies` loop of `get_relevant_jobs` (lines 57-75).
The `assert company.jobs_page` on line 62 sits outside the per-company
`try`, so a falsy `jobs_page` on an active, non-skipped company aborts the
whole run: that is the outer `Except.error`. -/
def get_relevant_jobs_loop (env : List (Company × FetchResult)) (limit_company : Option String)
    (search_terms : List String) : Except String ScrapeResult :=
  match env with
  | [] => .ok ⟨[], [], [], []⟩
  | (company, fetch) :: rest =>
    if limitSkip limit_company company then
      get_relevant_jobs_loop rest limit_company search_terms
    else if company.active then
      if company.jobs_page == "" then
        .error (company.name ++ ": assert company.jobs_page failed")
      else
        let head : ScrapeResult :=
          match get_company_relevant_jobs company fetch search_terms with
          | .ok (company_relevant_jobs, jobs_page_status) =>
            if company_relevant_jobs.length > 0 then
              ⟨company_relevant_jobs.map (fun job => (company, job)), [], [], []⟩
            else if jobs_page_status = JobsPageStatus.GENERIC_NO_JOBS_PHRASE_FOUND ∨
                jobs_page_status = JobsPageStatus.NO_JOBS_PHRASE_NOT_FOUND_BUT_NO_JOBS then
              ⟨[], [], [company], []⟩
            else
              ⟨[], [], [], []⟩
          | .error e => ⟨[], [], [], [(company.name, e)]⟩
        match get_relevant_jobs_loop rest limit_company search_terms with
        | .error e => .error e
        | .ok tail =>
          .ok ⟨head.relevant_jobs ++ tail.relevant_jobs,
               head.skipped_companies ++ tail.skipped_companies,
               head.verify_no_jobs ++ tail.verify_no_jobs,
               head.errors ++ tail.errors⟩
    else
      match get_relevant_jobs_loop rest limit_company search_terms with
      | .error e => .error e
      | .ok tail =>
        .ok ⟨tail.relevant_jobs, company.name :: tail.skipped_companies,
             tail.verify_no_jobs, tail.errors⟩

/-- jobscrape.py lines 53-55: the configured search terms, extended by the
additional search term when that is truthy. -/
def buildSearchTerms (config_search_terms : List String)
    (additional_search_term : Option String) : List String :=
  config_search_terms ++
    (match additional_search_term with
     | some t => if t == "" then [] else [t]
     | none => [])

/-- jobscrape.py `get_relevant_jobs` (lines 43-78): build the search terms from
the config, then run the company loop. -/
def get_relevant_jobs (env : List (Company × FetchResult)) (limit_company : Option String)
    (additional_search_term : Option String) (config_search_terms : List String) :
    Except String ScrapeResult :=
  get_relevant_jobs_loop env limit_company
    (buildSearchTerms config_search_terms additional_search_term)

/-- First-match association lookup with the defaultdict's empty-set default:
`existing_relevant_jobs[name]` as read in the membership test on line 28. -/
def lookupD (m : List (String × List String)) (k : String) : List String :=
  match m.find? (fun p => p.1 == k) with
  | some p => p.2
  | none => []

/-- Whether the dict already has the key. -/
def containsKey (m : List (String × List String)) (k : String) : Bool :=
  m.any (fun p => p.1 == k)

/-- A defaultdict read creates the key with an empty set when it is absent. -/
def touchKey (m : List (String × List String)) (k : String) : List (String × List String) :=
  if containsKey m k then m else m ++ [(k, [])]

/-- Python `existing_relevant_jobs[company.name].add(job.id)` (line 37): append
the id to the first entry with this key (the key is present after `touchKey`). -/
def addId : List (String × List String) → String → String → List (String × List String)
  | [], k, i => [(k, [i])]
  | (k', v) :: rest, k, i =>
    if k' == k then (k', v ++ [i]) :: rest else (k', v) :: addId rest k i

/-- The `new_relevant_jobs` dict in insertion order: a company-name key holding
the `Company` and the accumulated jobs list (lines 29-35). -/
def appendJob : List (String × Company × List JobPosting) → Company → JobPosting →
    List (String × Company × List JobPosting)
  | [], c, j => [(c.name, c, [j])]
  | (n, c0, js) :: rest, c, j =>
    if n == c.name then (n, c0, js ++ [j]) :: rest else (n, c0, js) :: appendJob rest c j

/-- The two dicts the grouping loop of `get_new_relevant_jobs` updates. -/
structure DiffState where
  seen : List (String × List String)
  new_relevant_jobs : List (String × Company × List JobPosting)
deriving DecidableEq, Repr

/-- One iteration of the `for company, job in relevant_jobs` loop
(jobscrape.py lines 27-37). -/
def diffStep (st : DiffState) (p : Company × JobPosting) : DiffState :=
  let (company, job) := p
  let seen1 := touchKey st.seen company.name
  if job.id ∈ lookupD st.seen company.name then
    { st with seen := seen1 }
  else
    { seen := addId seen1 company.name job.id,
      new_relevant_jobs := appendJob st.new_relevant_jobs company job }

/-- Python `sorted(list(value))` applied to a set that was built by insertions:
drop duplicates, then sort by Python string order `leStr`. -/
def sortedSet (xs : List String) : List String :=
  List.insertionSort (fun a b => leStr a b = true) xs.dedup

/-- The grouping-and-diff part of `get_new_relevant_jobs` (lines 21-39): seed
the seen map with `{key: set(value)}`, run the loop, and sort each id set. -/
def diffNewJobs (existing_relevant_jobs : List (String × List String))
    (relevant_jobs : List (Company × JobPosting)) : DiffState :=
  relevant_jobs.foldl diffStep
    ⟨existing_relevant_jobs.map (fun p => (p.1, p.2.dedup)), []⟩

/-- The tuple `get_new_relevant_jobs` returns (line 41). -/
structure NewJobsResult where
  new_relevant_jobs : List (String × Company × List JobPosting)
  existing_relevant_jobs : List (String × List String)
  verify_no_jobs : List Company
  errors : List (String × String)
deriving DecidableEq, Repr

/-- jobscrape.py `get_new_relevant_jobs` (lines 19-41): scrape, then diff the
relevant jobs against the previously seen ids. -/
def get_new_relevant_jobs (env : List (Company × FetchResult))
    (existing_relevant_jobs : List (String × List String)) (limit_company : Option String)
    (additional_search_term : Option String) (config_search_terms : List String) :
    Except String NewJobsResult :=
  match get_relevant_jobs env limit_company additional_search_term config_search_terms with
  | .error e => .error e
  | .ok r =>
    let final := diffNewJobs existing_relevant_jobs r.relevant_jobs
    .ok ⟨final.new_relevant_jobs,
         final.seen.map (fun p => (p.1, sortedSet p.2)),
         r.verify_no_jobs,
         r.errors⟩

/-- An entry of the stored errors JSON (lambda_function.py lines 94-97). -/
structure ErrRecord where
  company_name : String
  message : String
deriving DecidableEq, Repr

/-- What lambda_function.py `lambda_handler` did, seen from outside: which SNS
notifications it published and what it left in the two S3 objects.
`stored_jobs = none` means the existing-jobs object was not written. -/
structure LambdaResult where
  published_new_jobs : Bool
  published_new_errors : Bool
  stored_jobs : Option (List (String × List String))
  stored_errors : List ErrRecord
deriving DecidableEq, Repr

/-- lambda_function.py `lambda_handler` (lines 10-123), with the AWS
collaborators made explicit: the page fetches are `env`, the two S3 reads are
the `existing_relevant_jobs` and `existing_errors` arguments, and SNS
publishes / S3 writes are recorded in the `LambdaResult`.  When
`dont_replace_existing` is set the write goes to a timestamped key, so the
original object is only overwritten when the flag is off. -/
def lambda_handler (env : List (Company × FetchResult))
    (existing_relevant_jobs : List (String × List String)) (existing_errors : List ErrRecord)
    (limit_company temp_term : Option String) (config_search_terms : List String)
    (dont_replace_existing dont_write_existing : Bool) : Except String LambdaResult :=
  match get_new_relevant_jobs env existing_relevant_jobs limit_company temp_term
      config_search_terms with
  | .error e => .error e
  | .ok r =>
    let published_new_jobs := r.new_relevant_jobs.length > 0
    let stored_jobs :=
      if r.new_relevant_jobs.length > 0 && !dont_write_existing && !dont_replace_existing then
        some r.existing_relevant_jobs
      else
        none
    let existing_errors_company_names := (existing_errors.map (fun e => e.company_name)).dedup
    if r.errors.length > 0 then
      let has_new_errors :=
        r.errors.any (fun p => !(existing_errors_company_names.contains p.1))
      let new_existing_errors :=
        r.errors.map (fun p => ErrRecord.mk p.1 p.2)
      .ok ⟨published_new_jobs, has_new_errors, stored_jobs, new_existing_errors⟩
    else if existing_errors_company_names.length > 0 then
      .ok ⟨published_new_jobs, false, stored_jobs, []⟩
    else
      .ok ⟨published_new_jobs, false, stored_jobs, existing_errors⟩

/-- Reading `new_relevant_jobs[name]["jobs"]`: the jobs list stored under a
company-name key, `[]` when the key is absent. -/
def jobsOf (m : List (String × Company × List JobPosting)) (k : String) : List JobPosting :=
  match m.find? (fun p => p.1 == k) with
  | some p => p.2.2
  | none => []

/-- Invariant of the grouping loop: company-name keys are unique, each group's
job ids are duplicate-free, and every grouped id is already in the seen map. -/
def DiffInv (st : DiffState) : Prop :=
  ((st.new_relevant_jobs.map (fun e => e.1)).Nodup) ∧
  ∀ e ∈ st.new_relevant_jobs, ((e.2.2.map (fun j => j.id)).Nodup) ∧
    ∀ j ∈ e.2.2, j.id ∈ lookupD st.seen e.1

/-- A concrete active company with a scraper class and no custom no-jobs
phrase, used to instantiate the theorems. -/
def exCompany : Company :=
  ⟨"Acme", true, "https://acme.example/jobs", true, "", []⟩

/-- A concrete relevant posting. -/
def exJob1 : JobPosting := ⟨"Great Role", "", "1"⟩

/-- A second posting with a different title but the same id as `exJob1`. -/
def exJob2 : JobPosting := ⟨"Great Stuff", "", "1"⟩

/-- A run whose page yields two relevant postings sharing one id. -/
def exEnvDup : List (Company × FetchResult) :=
  [(exCompany, .ok "careers here" [exJob1, exJob2])]

/-- A run yielding a single relevant posting. -/
def exEnv : List (Company × FetchResult) :=
  [(exCompany, .ok "careers here" [exJob1])]

/-- A concrete company whose fetch raises. -/
def exFailCompany : Company :=
  ⟨"Beta", true, "https://beta.example/jobs", true, "", []⟩

/-- A run with one successful and one failing company. -/
def exEnv2 : List (Company × FetchResult) :=
  [(exCompany, .ok "careers here" [exJob1]), (exFailCompany, .err "boom")]

/-- A concrete company configuring per-company relevant search terms. -/
def mlCompany : Company :=
  ⟨"MLCo", true, "https://mlco.example/jobs", true, "", ["ml"]⟩

/-- The scrape outcome of `exEnv2` against an empty seen map. -/
def exScrapeR : NewJobsResult :=
  ⟨[("Acme", exCompany, [exJob1])], [("Acme", ["1"])], [], [("Beta", "boom")]⟩

/-- The handler outcome of `exEnv2` with empty stored state. -/
def exLambdaRes : LambdaResult :=
  ⟨true, true, some [("Acme", ["1"])], [⟨"Beta", "boom"⟩]⟩

theorem charToNat_inj (a b : Char) (h : a.toNat = b.toNat) : a = b :=
  Char.ext (UInt32.ext h)

theorem leChars_total (as bs : List Char) : leChars as bs = true ∨ leChars bs as = true := by
  induction as generalizing bs with
  | nil => exact Or.inl rfl
  | cons a as ih =>
    cases bs with
    | nil => exact Or.inr rfl
    | cons b bs =>
      unfold leChars
      by_cases hab : a = b
      · subst hab
        rw [beq_self_eq_true]
        exact ih bs
      · have h1 : (a == b) = false := beq_eq_false_iff_ne.mpr hab
        have h2 : (b == a) = false := beq_eq_false_iff_ne.mpr (fun h => hab h.symm)
        rw [h1, h2]
        rcases Nat.lt_trichotomy a.toNat b.toNat with h | h | h
        · exact Or.inl (by simpa using h)
        · exact absurd (charToNat_inj a b h) hab
        · exact Or.inr (by simpa using h)

theorem leChars_trans (as bs cs : List Char) (h1 : leChars as bs = true)
    (h2 : leChars bs cs = true) : leChars as cs = true := by
  induction as generalizing bs cs with
  | nil => rfl
  | cons a as ih =>
    cases bs with
    | nil => simp [leChars] at h1
    | cons b bs =>
      cases cs with
      | nil => simp [leChars] at h2
      | cons c cs =>
        unfold leChars at h1 h2 ⊢
        by_cases hab : a = b <;> by_cases hbc : b = c
        · subst hab
          subst hbc
          rw [beq_self_eq_true] at h1 h2 ⊢
          exact ih bs cs h1 h2
        · subst hab
          rw [beq_self_eq_true] at h1
          rw [beq_eq_false_iff_ne.mpr hbc] at h2 ⊢
          exact h2
        · subst hbc
          rw [beq_self_eq_true] at h2
          rw [beq_eq_false_iff_ne.mpr hab] at h1 ⊢
          exact h1
        · rw [beq_eq_false_iff_ne.mpr hab] at h1
          rw [beq_eq_false_iff_ne.mpr hbc] at h2
          have hlt1 : a.toNat < b.toNat := of_decide_eq_true h1
          have hlt2 : b.toNat < c.toNat := of_decide_eq_true h2
          have hlt : a.toNat < c.toNat := Nat.lt_trans hlt1 hlt2
          have hac : ¬(a = c) := fun h => by
            subst h
            exact Nat.lt_irrefl _ hlt
          rw [beq_eq_false_iff_ne.mpr hac]
          exact decide_eq_true hlt

theorem mem_sortedSet (xs : List String) (x : String) (h : x ∈ xs) : x ∈ sortedSet xs := by
  unfold sortedSet
  rw [List.mem_insertionSort]
  exact List.mem_dedup.mpr h

theorem sortedSet_nodup (xs : List String) : (sortedSet xs).Nodup := by
  unfold sortedSet
  exact (List.perm_insertionSort _ _).nodup_iff.mpr (List.nodup_dedup xs)

theorem sortedSet_sorted (xs : List String) :
    List.Sorted (fun a b => leStr a b = true) (sortedSet xs) := by
  haveI : IsTotal String (fun a b => leStr a b = true) :=
    ⟨fun a b => leChars_total a.data b.data⟩
  haveI : IsTrans String (fun a b => leStr a b = true) :=
    ⟨fun a b c => leChars_trans a.data b.data c.data⟩
  exact List.sorted_insertionSort _ _

/-- C9: when a company configures a non-empty `relevant_search_terms` list,
`title_is_relevant` for that company is decided solely by those per-company
terms — the passed-in search terms (global list plus any additional term) do
not influence the result. -/
theorem C9_per_company_terms_override (company : Company) (title : String)
    (ts ts' : List String) (h : company.relevant_search_terms ≠ []) :
    title_is_relevant company title ts = title_is_relevant company title ts' ∧
    (title_is_relevant company title ts = true ↔
      ∃ t ∈ company.relevant_search_terms, substr_ci t title = true) := by
  unfold title_is_relevant
  rw [if_pos h, if_pos h]
  exact ⟨rfl, by simp [List.any_eq_true]⟩

theorem C9_witness :
    (title_is_relevant mlCompany "ML Engineer" ["x"] =
      title_is_relevant mlCompany "ML Engineer" ["y"]) ∧
    (title_is_relevant mlCompany "ML Engineer" ["x"] = true ↔
      ∃ t ∈ mlCompany.relevant_search_terms, substr_ci t "ML Engineer" = true) :=
  C9_per_company_terms_override mlCompany "ML Engineer" ["x"] ["y"] (by decide)

/-- C3, counterexample to the claim as stated: for a company that configures
`relevant_search_terms`, a title containing a configured global search term
case-insensitively is nevertheless not relevant, so "returns true exactly when
some search term is a substring of the title" fails for that input. -/
theorem C3_counterexample :
    title_is_relevant mlCompany "Engineer" ["engineer"] = false ∧
    ("engineer" ∈ (["engineer"] : List String) ∧ substr_ci "engineer" "Engineer" = true) ∧
    ¬(title_is_relevant mlCompany "Engineer" ["engineer"] = true ↔
        ∃ t ∈ (["engineer"] : List String), substr_ci t "Engineer" = true) := by
  refine ⟨by decide, ⟨by decide, by decide⟩, ?_⟩
  intro h
  have := h.mpr ⟨"engineer", by decide, by decide⟩
  simp [title_is_relevant, mlCompany] at this
  revert this
  decide

/-- C3 as amended: for a company with no per-company `relevant_search_terms`,
`title_is_relevant` returns true exactly when some passed-in search term is a
case-insensitive substring of the title. -/
theorem C3_title_relevance_by_search_terms (company : Company) (title : String)
    (search_terms : List String) (h : company.relevant_search_terms = []) :
    title_is_relevant company title search_terms = true ↔
      ∃ t ∈ search_terms, substr_ci t title = true := by
  unfold title_is_relevant
  rw [if_neg (by simp [h])]
  simp [List.any_eq_true]

theorem C3_witness :
    title_is_relevant exCompany "Senior Engineer" ["engineer"] = true ↔
      ∃ t ∈ (["engineer"] : List String), substr_ci t "Senior Engineer" = true :=
  C3_title_relevance_by_search_terms exCompany "Senior Engineer" ["engineer"] rfl

/-- C4: `has_jobs` raises exactly on an empty page body; otherwise it returns
`False` exactly when the configured `no_jobs_phrase` (or, with none configured,
at least one of the ten generic phrases) occurs case-insensitively in the page
body text. -/
theorem C4_has_jobs_detection (company : Company) (body : String) :
    (body = "" → ∃ e, has_jobs company body = .error e) ∧
    (body ≠ "" → ∃ b st, has_jobs company body = .ok (b, st) ∧
      (b = false ↔
        ((company.no_jobs_phrase ≠ "" ∧ substr_ci company.no_jobs_phrase body = true) ∨
         (company.no_jobs_phrase = "" ∧
           ∃ p ∈ generic_no_jobs_phrases, substr_ci p body = true)))) := by
  constructor
  · intro h
    subst h
    exact ⟨_, rfl⟩
  · intro h
    have hne : ¬((lowerStr body == []) = true) := by
      simp [lowerStr, List.map_eq_nil_iff]
      intro hd
      exact h (String.ext hd)
    unfold has_jobs
    rw [if_neg hne]
    by_cases hp : company.no_jobs_phrase = ""
    · rw [if_neg (by simp [hp])]
      refine ⟨_, _, rfl, ?_⟩
      simp [hp]
    · rw [if_pos hp]
      by_cases hs : substr_ci company.no_jobs_phrase body = true
      · rw [if_pos hs]
        exact ⟨_, _, rfl, by simp [hp, hs]⟩
      · rw [if_neg hs]
        exact ⟨_, _, rfl, by simp [hp, hs]⟩

theorem C4_witness :
    (∃ e, has_jobs exCompany "" = .error e) ∧
    (∃ b st, has_jobs exCompany "careers here" = .ok (b, st) ∧
      (b = false ↔
        ((exCompany.no_jobs_phrase ≠ "" ∧
           substr_ci exCompany.no_jobs_phrase "careers here" = true) ∨
         (exCompany.no_jobs_phrase = "" ∧
           ∃ p ∈ generic_no_jobs_phrases, substr_ci p "careers here" = true)))) :=
  ⟨(C4_has_jobs_detection exCompany "").1 rfl,
   (C4_has_jobs_detection exCompany "careers here").2 (by decide)⟩

/-- C2: `lambda_handler` publishes the "New jobs" SNS notification exactly when
the run produced a non-empty `new_relevant_jobs` map. -/
theorem C2_new_jobs_notification_iff_nonempty (env : List (Company × FetchResult))
    (existing_relevant_jobs : List (String × List String)) (existing_errors : List ErrRecord)
    (limit_company temp_term : Option String) (config_search_terms : List String)
    (dont_replace_existing dont_write_existing : Bool) (r : NewJobsResult) (res : LambdaResult)
    (hscrape : get_new_relevant_jobs env existing_relevant_jobs limit_company temp_term
      config_search_terms = .ok r)
    (hrun : lambda_handler env existing_relevant_jobs existing_errors limit_company temp_term
      config_search_terms dont_replace_existing dont_write_existing = .ok res) :
    res.published_new_jobs = true ↔ r.new_relevant_jobs ≠ [] := by
  unfold lambda_handler at hrun
  rw [hscrape] at hrun
  simp only at hrun
  split at hrun
  · cases hrun
    simp [List.length_pos]
  · split at hrun
    · cases hrun
      simp [List.length_pos]
    · cases hrun
      simp [List.length_pos]

theorem C2_witness :
    exLambdaRes.published_new_jobs = true ↔ exScrapeR.new_relevant_jobs ≠ [] :=
  C2_new_jobs_notification_iff_nonempty exEnv2 [] [] none none ["great"] false false
    exScrapeR exLambdaRes rfl rfl

/-- C6: `lambda_handler` publishes the "New scrape errors" SNS notification
exactly when some error of the current run names a company absent from the
previously stored errors; a run whose errors all come from already-stored
companies publishes nothing. -/
theorem C6_error_notification_iff_new_company (env : List (Company × FetchResult))
    (existing_relevant_jobs : List (String × List String)) (existing_errors : List ErrRecord)
    (limit_company temp_term : Option String) (config_search_terms : List String)
    (dont_replace_existing dont_write_existing : Bool) (r : NewJobsResult) (res : LambdaResult)
    (hscrape : get_new_relevant_jobs env existing_relevant_jobs limit_company temp_term
      config_search_terms = .ok r)
    (hrun : lambda_handler env existing_relevant_jobs existing_errors limit_company temp_term
      config_search_terms dont_replace_existing dont_write_existing = .ok res) :
    res.published_new_errors = true ↔
      ∃ p ∈ r.errors, p.1 ∉ existing_errors.map (fun e => e.company_name) := by
  unfold lambda_handler at hrun
  rw [hscrape] at hrun
  simp only at hrun
  split at hrun
  · cases hrun
    simp [List.any_eq_true, List.mem_dedup]
  · rename_i hlen
    have : r.errors = [] := by
      cases hr : r.errors with
      | nil => rfl
      | cons a l => rw [hr] at hlen; simp at hlen
    split at hrun
    · cases hrun
      simp [this]
    · cases hrun
      simp [this]

theorem C6_witness :
    exLambdaRes.published_new_errors = true ↔
      ∃ p ∈ exScrapeR.errors, p.1 ∉ ([] : List ErrRecord).map (fun e => e.company_name) :=
  C6_error_notification_iff_new_company exEnv2 [] [] none none ["great"] false false
    exScrapeR exLambdaRes rfl rfl

/-- C7: after `lambda_handler` runs, the stored errors object holds exactly the
current run's errors as records, one per error in scrape order — in particular
a run with no errors resets a non-empty stored list to the empty list. -/
theorem C7_stored_errors_replaced (env : List (Company × FetchResult))
    (existing_relevant_jobs : List (String × List String)) (existing_errors : List ErrRecord)
    (limit_company temp_term : Option String) (config_search_terms : List String)
    (dont_replace_existing dont_write_existing : Bool) (r : NewJobsResult) (res : LambdaResult)
    (hscrape : get_new_relevant_jobs env existing_relevant_jobs limit_company temp_term
      config_search_terms = .ok r)
    (hrun : lambda_handler env existing_relevant_jobs existing_errors limit_company temp_term
      config_search_terms dont_replace_existing dont_write_existing = .ok res) :
    res.stored_errors = r.errors.map (fun p => ErrRecord.mk p.1 p.2) := by
  unfold lambda_handler at hrun
  rw [hscrape] at hrun
  simp only at hrun
  split at hrun
  · cases hrun
    rfl
  · rename_i hlen
    have herr : r.errors = [] := by
      cases hr : r.errors with
      | nil => rfl
      | cons a l => rw [hr] at hlen; simp at hlen
    split at hrun
    · cases hrun
      simp [herr]
    · rename_i hnames
      cases hrun
      have : existing_errors = [] := by
        have hd : (existing_errors.map (fun e => e.company_name)).dedup = [] := by
          cases hdd : (existing_errors.map (fun e => e.company_name)).dedup with
          | nil => rfl
          | cons a l => rw [hdd] at hnames; simp at hnames
        have := (List.dedup_eq_nil _).mp hd
        simpa using this
      simp [herr, this]

theorem C7_witness :
    exLambdaRes.stored_errors = exScrapeR.errors.map (fun p => ErrRecord.mk p.1 p.2) :=
  C7_stored_errors_replaced exEnv2 [] [] none none ["great"] false false
    exScrapeR exLambdaRes rfl rfl

theorem get_relevant_jobs_loop_append (xs ys : List (Company × FetchResult))
    (limit_company : Option String) (search_terms : List String) (a b : ScrapeResult)
    (hx : get_relevant_jobs_loop xs limit_company search_terms = .ok a)
    (hy : get_relevant_jobs_loop ys limit_company search_terms = .ok b) :
    get_relevant_jobs_loop (xs ++ ys) limit_company search_terms =
      .ok ⟨a.relevant_jobs ++ b.relevant_jobs, a.skipped_companies ++ b.skipped_companies,
           a.verify_no_jobs ++ b.verify_no_jobs, a.errors ++ b.errors⟩ := by
  induction xs generalizing a with
  | nil =>
    unfold get_relevant_jobs_loop at hx
    cases hx
    simpa using hy
  | cons p xs ih =>
    obtain ⟨company, fetch⟩ := p
    rw [show ((company, fetch) :: xs) ++ ys = (company, fetch) :: (xs ++ ys) from rfl]
    rw [get_relevant_jobs_loop] at hx ⊢
    by_cases hskip : limitSkip limit_company company = true
    · rw [if_pos hskip] at hx ⊢
      exact ih a hx
    · rw [if_neg hskip] at hx ⊢
      by_cases hact : company.active = true
      · rw [if_pos hact] at hx ⊢
        by_cases hpage : (company.jobs_page == "") = true
        · rw [if_pos hpage] at hx
          cases hx
        · rw [if_neg hpage] at hx ⊢
          simp only at hx ⊢
          cases hloop : get_relevant_jobs_loop xs limit_company search_terms with
          | error e => rw [hloop] at hx; cases hx
          | ok tail =>
            rw [hloop] at hx
            simp only at hx
            cases hx
            rw [ih tail hloop]
            simp
      · rw [if_neg hact] at hx ⊢
        cases hloop : get_relevant_jobs_loop xs limit_company search_terms with
        | error e => rw [hloop] at hx; cases hx
        | ok tail =>
          rw [hloop] at hx
          simp only at hx
          cases hx
          rw [ih tail hloop]
          simp

/-- C5: an exception while scraping one active company is recorded as the pair
(company name, exception) in the errors accumulator, scraping continues, and
the surrounding companies' jobs, skipped and verify-no-jobs results are exactly
those of the runs without the failing company; the failing company contributes
no jobs and no verify entry. -/
theorem C5_company_error_isolated (xs ys : List (Company × FetchResult)) (c : Company)
    (fetch : FetchResult) (limit_company additional_search_term : Option String)
    (config_search_terms : List String) (msg : String) (r1 r2 : ScrapeResult)
    (h1 : get_relevant_jobs xs limit_company additional_search_term config_search_terms = .ok r1)
    (h2 : get_relevant_jobs ys limit_company additional_search_term config_search_terms = .ok r2)
    (hskip : limitSkip limit_company c = false) (hact : c.active = true)
    (hpage : c.jobs_page ≠ "")
    (herr : get_company_relevant_jobs c fetch
      (buildSearchTerms config_search_terms additional_search_term) = .error msg) :
    get_relevant_jobs (xs ++ (c, fetch) :: ys) limit_company additional_search_term
        config_search_terms =
      .ok ⟨r1.relevant_jobs ++ r2.relevant_jobs,
           r1.skipped_companies ++ r2.skipped_companies,
           r1.verify_no_jobs ++ r2.verify_no_jobs,
           r1.errors ++ (c.name, msg) :: r2.errors⟩ := by
  unfold get_relevant_jobs at h1 h2 ⊢
  have hmid : get_relevant_jobs_loop ((c, fetch) :: ys) limit_company
      (buildSearchTerms config_search_terms additional_search_term) =
      .ok ⟨r2.relevant_jobs, r2.skipped_companies, r2.verify_no_jobs,
           (c.name, msg) :: r2.errors⟩ := by
    unfold get_relevant_jobs_loop
    rw [if_neg (by simp [hskip]), if_pos hact, if_neg (by simp [hpage])]
    simp only [herr]
    rw [h2]
    simp
  have := get_relevant_jobs_loop_append xs ((c, fetch) :: ys) limit_company
    (buildSearchTerms config_search_terms additional_search_term) r1
    ⟨r2.relevant_jobs, r2.skipped_companies, r2.verify_no_jobs, (c.name, msg) :: r2.errors⟩
    h1 hmid
  simpa using this

theorem C5_witness :
    get_relevant_jobs ([] ++ (exFailCompany, FetchResult.err "boom") ::
        [(exCompany, FetchResult.ok "careers here" [exJob1])]) none none ["great"] =
      .ok ⟨[] ++ [(exCompany, exJob1)], [] ++ [], [] ++ [],
           [] ++ ("Beta", "boom") :: []⟩ :=
  C5_company_error_isolated [] [(exCompany, FetchResult.ok "careers here" [exJob1])]
    exFailCompany (FetchResult.err "boom") none none ["great"] "boom"
    ⟨[], [], [], []⟩ ⟨[(exCompany, exJob1)], [], [], []⟩
    rfl rfl (by decide) rfl (by decide) rfl

theorem lookupD_touchKey (m : List (String × List String)) (k' k : String) :
    lookupD (touchKey m k') k = lookupD m k := by
  unfold touchKey
  split
  · rfl
  · rename_i hc
    unfold lookupD
    rw [List.find?_append]
    cases hf : m.find? (fun p => p.1 == k) with
    | some p => simp
    | none =>
      simp only [Option.none_or]
      cases hkk : (k' == k) with
      | true => simp [List.find?, hkk]
      | false => simp [List.find?, hkk]


theorem containsKey_touchKey (m : List (String × List String)) (k' k : String)
    (h : containsKey m k = true) : containsKey (touchKey m k') k = true := by
  unfold touchKey
  split
  · exact h
  · unfold containsKey at h ⊢
    simp only [List.any_append, h, Bool.true_or]

theorem containsKey_touchKey_self (m : List (String × List String)) (k : String) :
    containsKey (touchKey m k) k = true := by
  unfold touchKey
  split
  · assumption
  · unfold containsKey
    simp [List.any_append, List.any_cons]

theorem lookupD_addId_ne (m : List (String × List String)) (k' k i : String)
    (h : ¬(k = k')) : lookupD (addId m k' i) k = lookupD m k := by
  induction m with
  | nil =>
    unfold addId lookupD
    have hkk : (k' == k) = false := by
      simp
      intro he
      exact absurd he.symm h
    simp [List.find?, hkk]
  | cons p m ih =>
    obtain ⟨pk, pv⟩ := p
    unfold addId
    split
    · rename_i hpk
      unfold lookupD
      simp only [List.find?]
      have : (pk == k) = false := by
        simp at hpk ⊢
        rw [hpk]
        intro he
        exact h he.symm
      rw [this]
    · unfold lookupD
      simp only [List.find?]
      cases hpk2 : (pk == k) with
      | true => rfl
      | false => exact ih

theorem lookupD_addId_self (m : List (String × List String)) (k i : String)
    (h : containsKey m k = true) : lookupD (addId m k i) k = lookupD m k ++ [i] := by
  induction m with
  | nil => simp [containsKey] at h
  | cons p m ih =>
    obtain ⟨pk, pv⟩ := p
    unfold addId
    split
    · rename_i hpk
      simp only [beq_iff_eq] at hpk
      unfold lookupD
      simp only [List.find?, hpk, beq_self_eq_true]
    · rename_i hpk
      unfold containsKey at h
      simp only [List.any_cons] at h
      unfold lookupD
      simp only [List.find?]
      cases hpk2 : (pk == k) with
      | true =>
        exfalso
        apply hpk
        simpa using hpk2
      | false =>
        apply ih
        unfold containsKey
        rcases Bool.or_eq_true_iff.mp h with h1 | h1
        · rw [h1] at hpk2
          cases hpk2
        · exact h1

theorem containsKey_addId (m : List (String × List String)) (k' k i : String)
    (h : containsKey m k = true) : containsKey (addId m k' i) k = true := by
  induction m with
  | nil => simp [containsKey] at h
  | cons p m ih =>
    obtain ⟨pk, pv⟩ := p
    unfold addId
    unfold containsKey at h
    simp only [List.any_cons] at h
    split
    · unfold containsKey
      simpa using h
    · unfold containsKey
      simp only [List.any_cons, Bool.or_eq_true]
      rcases Bool.or_eq_true_iff.mp h with h1 | h1
      · left
        exact h1
      · right
        have := ih h1
        unfold containsKey at this
        exact this

theorem jobsOf_nil (k : String) : jobsOf [] k = [] := rfl

theorem jobsOf_appendJob_self (m : List (String × Company × List JobPosting)) (c : Company)
    (j : JobPosting) : jobsOf (appendJob m c j) c.name = jobsOf m c.name ++ [j] := by
  induction m with
  | nil => simp [appendJob, jobsOf, List.find?]
  | cons e m ih =>
    obtain ⟨n, c0, js⟩ := e
    unfold appendJob
    cases hn : (n == c.name) with
    | true =>
      simp only [if_pos rfl]
      unfold jobsOf
      simp only [List.find?, hn]
    | false =>
      rw [if_neg (show ¬(false = true) by decide)]
      unfold jobsOf
      simp only [List.find?, hn]
      exact ih

theorem jobsOf_appendJob_ne (m : List (String × Company × List JobPosting)) (c : Company)
    (j : JobPosting) (k : String) (h : ¬(k = c.name)) :
    jobsOf (appendJob m c j) k = jobsOf m k := by
  induction m with
  | nil =>
    unfold appendJob jobsOf
    have : (c.name == k) = false := by
      simp
      intro he
      exact h he.symm
    simp [List.find?, this]
  | cons e m ih =>
    obtain ⟨n, c0, js⟩ := e
    unfold appendJob
    cases hn : (n == c.name) with
    | true =>
      simp only [if_pos rfl]
      unfold jobsOf
      have hnk : (n == k) = false := by
        simp only [beq_iff_eq] at hn
        simp [hn]
        intro he
        exact h he.symm
      simp only [List.find?, hnk]
    | false =>
      rw [if_neg (show ¬(false = true) by decide)]
      unfold jobsOf
      simp only [List.find?]
      cases hnk : (n == k) with
      | true => rfl
      | false => exact ih

theorem diffStep_skip (st : DiffState) (c : Company) (j : JobPosting)
    (h : j.id ∈ lookupD st.seen c.name) :
    diffStep st (c, j) = { st with seen := touchKey st.seen c.name } := by
  unfold diffStep
  simp only [if_pos h]

theorem diffStep_add (st : DiffState) (c : Company) (j : JobPosting)
    (h : ¬(j.id ∈ lookupD st.seen c.name)) :
    diffStep st (c, j) = ⟨addId (touchKey st.seen c.name) c.name j.id,
                          appendJob st.new_relevant_jobs c j⟩ := by
  unfold diffStep
  simp only [if_neg h]

theorem mem_lookupD_diffStep (st : DiffState) (p : Company × JobPosting) (x k : String)
    (h : x ∈ lookupD st.seen k) : x ∈ lookupD (diffStep st p).seen k := by
  obtain ⟨c, j⟩ := p
  by_cases hid : j.id ∈ lookupD st.seen c.name
  · rw [diffStep_skip st c j hid]
    simpa [lookupD_touchKey] using h
  · rw [diffStep_add st c j hid]
    simp only
    by_cases hk : k = c.name
    · subst hk
      rw [lookupD_addId_self _ _ _ (containsKey_touchKey_self _ _), lookupD_touchKey]
      exact List.mem_append_left _ h
    · rw [lookupD_addId_ne _ _ _ _ hk, lookupD_touchKey]
      exact h

theorem containsKey_diffStep (st : DiffState) (p : Company × JobPosting) (k : String)
    (h : containsKey st.seen k = true) : containsKey (diffStep st p).seen k = true := by
  obtain ⟨c, j⟩ := p
  by_cases hid : j.id ∈ lookupD st.seen c.name
  · rw [diffStep_skip st c j hid]
    exact containsKey_touchKey _ _ _ h
  · rw [diffStep_add st c j hid]
    exact containsKey_addId _ _ _ _ (containsKey_touchKey _ _ _ h)

theorem mem_jobsOf_diffStep (st : DiffState) (p : Company × JobPosting) (job : JobPosting)
    (k : String) (h : job ∈ jobsOf st.new_relevant_jobs k) :
    job ∈ jobsOf (diffStep st p).new_relevant_jobs k := by
  obtain ⟨c, j⟩ := p
  by_cases hid : j.id ∈ lookupD st.seen c.name
  · rw [diffStep_skip st c j hid]
    exact h
  · rw [diffStep_add st c j hid]
    simp only
    by_cases hk : k = c.name
    · subst hk
      rw [jobsOf_appendJob_self]
      exact List.mem_append_left _ h
    · rw [jobsOf_appendJob_ne _ _ _ _ hk]
      exact h

theorem mem_lookupD_foldl (rj : List (Company × JobPosting)) (st : DiffState) (x k : String)
    (h : x ∈ lookupD st.seen k) : x ∈ lookupD (rj.foldl diffStep st).seen k := by
  induction rj generalizing st with
  | nil => exact h
  | cons p rest ih =>
    simp only [List.foldl_cons]
    exact ih _ (mem_lookupD_diffStep st p x k h)

theorem containsKey_foldl (rj : List (Company × JobPosting)) (st : DiffState) (k : String)
    (h : containsKey st.seen k = true) : containsKey (rj.foldl diffStep st).seen k = true := by
  induction rj generalizing st with
  | nil => exact h
  | cons p rest ih =>
    simp only [List.foldl_cons]
    exact ih _ (containsKey_diffStep st p k h)

theorem mem_jobsOf_foldl (rj : List (Company × JobPosting)) (st : DiffState) (job : JobPosting)
    (k : String) (h : job ∈ jobsOf st.new_relevant_jobs k) :
    job ∈ jobsOf (rj.foldl diffStep st).new_relevant_jobs k := by
  induction rj generalizing st with
  | nil => exact h
  | cons p rest ih =>
    simp only [List.foldl_cons]
    exact ih _ (mem_jobsOf_diffStep st p job k h)

theorem jobsOf_foldl_fwd (rj : List (Company × JobPosting)) (st : DiffState)
    (job : JobPosting) (k : String)
    (h : job ∈ jobsOf (rj.foldl diffStep st).new_relevant_jobs k) :
    job ∈ jobsOf st.new_relevant_jobs k ∨
      ∃ c, (c, job) ∈ rj ∧ c.name = k ∧ ¬(job.id ∈ lookupD st.seen k) := by
  induction rj generalizing st with
  | nil => exact Or.inl h
  | cons p rest ih =>
    obtain ⟨c0, j0⟩ := p
    simp only [List.foldl_cons] at h
    rcases ih (diffStep st (c0, j0)) h with h1 | ⟨c, hc1, hc2, hc3⟩
    · by_cases hid : j0.id ∈ lookupD st.seen c0.name
      · rw [diffStep_skip st c0 j0 hid] at h1
        exact Or.inl h1
      · rw [diffStep_add st c0 j0 hid] at h1
        simp only at h1
        by_cases hk : k = c0.name
        · subst hk
          rw [jobsOf_appendJob_self] at h1
          rcases List.mem_append.mp h1 with h2 | h2
          · exact Or.inl h2
          · simp only [List.mem_singleton] at h2
            subst h2
            exact Or.inr ⟨c0, List.mem_cons_self _ _, rfl, hid⟩
        · rw [jobsOf_appendJob_ne _ _ _ _ hk] at h1
          exact Or.inl h1
    · refine Or.inr ⟨c, List.mem_cons_of_mem _ hc1, hc2, fun hmem => hc3 ?_⟩
      exact mem_lookupD_diffStep st (c0, j0) job.id k hmem

theorem jobsOf_foldl_bwd (rj : List (Company × JobPosting)) (st : DiffState)
    (c : Company) (job : JobPosting) (hmem : (c, job) ∈ rj)
    (hid : ¬(job.id ∈ lookupD st.seen c.name))
    (hnd : (rj.map (fun p => (p.1.name, p.2.id))).Nodup) :
    job ∈ jobsOf (rj.foldl diffStep st).new_relevant_jobs c.name := by
  induction rj generalizing st with
  | nil => cases hmem
  | cons p rest ih =>
    obtain ⟨c0, j0⟩ := p
    simp only [List.foldl_cons]
    rcases List.mem_cons.mp hmem with heq | hrest
    · injection heq with h1 h2
      subst h1
      subst h2
      rw [diffStep_add st c job hid]
      apply mem_jobsOf_foldl
      simp only
      rw [jobsOf_appendJob_self]
      exact List.mem_append_right _ (List.mem_singleton.mpr rfl)
    · have hnd' : (rest.map (fun p => (p.1.name, p.2.id))).Nodup := by
        simpa using hnd.of_cons
      refine ih _ hrest ?_ hnd'
      by_cases hid0 : j0.id ∈ lookupD st.seen c0.name
      · rw [diffStep_skip st c0 j0 hid0]
        simpa [lookupD_touchKey] using hid
      · rw [diffStep_add st c0 j0 hid0]
        simp only
        by_cases hk : c.name = c0.name
        · rw [hk, lookupD_addId_self _ _ _ (containsKey_touchKey_self _ _), lookupD_touchKey]
          intro hin
          rcases List.mem_append.mp hin with h2 | h2
          · exact hid (hk ▸ h2)
          · simp only [List.mem_singleton] at h2
            have hkey : (c.name, job.id) ∈ rest.map (fun p => (p.1.name, p.2.id)) :=
              List.mem_map.mpr ⟨(c, job), hrest, rfl⟩
            have hcons : ((c0.name, j0.id) :: rest.map (fun p => (p.1.name, p.2.id))).Nodup := hnd
            have hhead : ¬((c0.name, j0.id) ∈ rest.map (fun p => (p.1.name, p.2.id))) :=
              (List.nodup_cons.mp hcons).1
            apply hhead
            rw [← hk, ← h2]
            exact hkey
        · rw [lookupD_addId_ne _ _ _ _ hk, lookupD_touchKey]
          exact hid

theorem lookupD_map_dedup (m : List (String × List String)) (k : String) :
    lookupD (m.map (fun p => (p.1, p.2.dedup))) k = (lookupD m k).dedup := by
  induction m with
  | nil => simp [lookupD, List.find?]
  | cons p m ih =>
    obtain ⟨pk, pv⟩ := p
    unfold lookupD
    simp only [List.map_cons, List.find?]
    cases hpk : (pk == k) with
    | true => rfl
    | false =>
      unfold lookupD at ih
      exact ih

theorem containsKey_of_mem (m : List (String × List String)) (k : String) (v : List String)
    (h : (k, v) ∈ m) : containsKey m k = true := by
  unfold containsKey
  rw [List.any_eq_true]
  exact ⟨(k, v), h, by simp⟩

theorem mem_of_containsKey (m : List (String × List String)) (k : String)
    (h : containsKey m k = true) : (k, lookupD m k) ∈ m := by
  unfold containsKey at h
  unfold lookupD
  cases hf : m.find? (fun p => p.1 == k) with
  | some p =>
    obtain ⟨pk, pv⟩ := p
    have hp := List.find?_some hf
    have hpm := List.mem_of_find?_eq_some hf
    simp only [beq_iff_eq] at hp
    have hk : pk = k := hp
    subst hk
    exact hpm
  | none =>
    rw [List.any_eq_true] at h
    obtain ⟨p, hpm, hpk⟩ := h
    have := List.find?_eq_none.mp hf p hpm
    rw [hpk] at this
    cases this rfl

theorem lookupD_of_mem_nodup (m : List (String × List String)) (k : String) (v : List String)
    (hnd : (m.map (fun p => p.1)).Nodup) (h : (k, v) ∈ m) : lookupD m k = v := by
  induction m with
  | nil => cases h
  | cons p m ih =>
    obtain ⟨pk, pv⟩ := p
    rcases List.mem_cons.mp h with heq | hm
    · injection heq with h1 h2
      subst h1
      subst h2
      unfold lookupD
      simp [List.find?]
    · unfold lookupD
      simp only [List.find?]
      cases hpk : (pk == k) with
      | true =>
        exfalso
        simp only [List.map_cons, List.nodup_cons] at hnd
        apply hnd.1
        simp only [beq_iff_eq] at hpk
        subst hpk
        exact List.mem_map.mpr ⟨(pk, v), hm, rfl⟩
      | false =>
        have := ih (by simpa using hnd.of_cons) hm
        unfold lookupD at this
        exact this

theorem mem_keys_appendJob (m : List (String × Company × List JobPosting)) (c : Company)
    (j : JobPosting) (k : String) (h : k ∈ (appendJob m c j).map (fun e => e.1)) :
    k ∈ m.map (fun e => e.1) ∨ k = c.name := by
  induction m with
  | nil =>
    simp [appendJob] at h
    exact Or.inr h
  | cons e m ih =>
    obtain ⟨n, c0, js⟩ := e
    unfold appendJob at h
    cases hn : (n == c.name) with
    | true =>
      rw [hn, if_pos rfl] at h
      simp only [List.map_cons] at h ⊢
      exact Or.inl h
    | false =>
      rw [hn, if_neg (by decide)] at h
      simp only [List.map_cons, List.mem_cons] at h ⊢
      rcases h with h1 | h1
      · exact Or.inl (Or.inl h1)
      · rcases ih h1 with h2 | h2
        · exact Or.inl (Or.inr h2)
        · exact Or.inr h2

theorem nodup_keys_appendJob (m : List (String × Company × List JobPosting)) (c : Company)
    (j : JobPosting) (h : (m.map (fun e => e.1)).Nodup) :
    ((appendJob m c j).map (fun e => e.1)).Nodup := by
  induction m with
  | nil => simp [appendJob]
  | cons e m ih =>
    obtain ⟨n, c0, js⟩ := e
    unfold appendJob
    simp only [List.map_cons, List.nodup_cons] at h
    cases hn : (n == c.name) with
    | true =>
      rw [if_pos rfl]
      simp only [List.map_cons, List.nodup_cons]
      exact h
    | false =>
      rw [if_neg (by decide)]
      simp only [List.map_cons, List.nodup_cons]
      refine ⟨fun hmem => ?_, ih h.2⟩
      rcases mem_keys_appendJob m c j n hmem with h1 | h1
      · exact h.1 h1
      · simp only [beq_eq_false_iff_ne] at hn
        exact absurd h1 hn

theorem mem_appendJob (m : List (String × Company × List JobPosting)) (c : Company)
    (j : JobPosting) (e' : String × Company × List JobPosting) (h : e' ∈ appendJob m c j) :
    e' ∈ m ∨ (e'.1 = c.name ∧ (e'.2.2 = [j] ∨
      ∃ c0 js, (c.name, c0, js) ∈ m ∧ e'.2.2 = js ++ [j])) := by
  induction m with
  | nil =>
    simp [appendJob] at h
    subst h
    exact Or.inr ⟨rfl, Or.inl rfl⟩
  | cons e m ih =>
    obtain ⟨n, c0, js⟩ := e
    unfold appendJob at h
    cases hn : (n == c.name) with
    | true =>
      rw [hn, if_pos rfl] at h
      simp only [beq_iff_eq] at hn
      rcases List.mem_cons.mp h with h1 | h1
      · subst h1
        exact Or.inr ⟨hn, Or.inr ⟨c0, js, by rw [← hn]; exact List.mem_cons_self _ _, rfl⟩⟩
      · exact Or.inl (List.mem_cons_of_mem _ h1)
    | false =>
      rw [hn, if_neg (by decide)] at h
      rcases List.mem_cons.mp h with h1 | h1
      · subst h1
        exact Or.inl (List.mem_cons_self _ _)
      · rcases ih h1 with h2 | ⟨h2, h3⟩
        · exact Or.inl (List.mem_cons_of_mem _ h2)
        · rcases h3 with h3 | ⟨cx, jsx, hx1, hx2⟩
          · exact Or.inr ⟨h2, Or.inl h3⟩
          · exact Or.inr ⟨h2, Or.inr ⟨cx, jsx, List.mem_cons_of_mem _ hx1, hx2⟩⟩

theorem diffStep_inv (st : DiffState) (p : Company × JobPosting) (h : DiffInv st) :
    DiffInv (diffStep st p) := by
  obtain ⟨c, j⟩ := p
  obtain ⟨hkeys, hent⟩ := h
  by_cases hid : j.id ∈ lookupD st.seen c.name
  · rw [diffStep_skip st c j hid]
    refine ⟨hkeys, fun e he => ⟨(hent e he).1, fun j' hj' => ?_⟩⟩
    rw [lookupD_touchKey]
    exact (hent e he).2 j' hj'
  · rw [diffStep_add st c j hid]
    refine ⟨nodup_keys_appendJob _ _ _ hkeys, fun e he => ?_⟩
    rcases mem_appendJob _ _ _ _ he with h1 | ⟨h1, h2⟩
    · refine ⟨(hent e h1).1, fun j' hj' => ?_⟩
      by_cases hk : e.1 = c.name
      · rw [hk, lookupD_addId_self _ _ _ (containsKey_touchKey_self _ _), lookupD_touchKey]
        exact List.mem_append_left _ ((hent e h1).2 j' hj' |> (hk ▸ ·))
      · rw [lookupD_addId_ne _ _ _ _ hk, lookupD_touchKey]
        exact (hent e h1).2 j' hj'
    · rcases h2 with h2 | ⟨c0, js, hjs, h2⟩
      · rw [h2, h1]
        refine ⟨by simp, fun j' hj' => ?_⟩
        simp only [List.mem_singleton] at hj'
        subst hj'
        rw [lookupD_addId_self _ _ _ (containsKey_touchKey_self _ _), lookupD_touchKey]
        exact List.mem_append_right _ (List.mem_singleton.mpr rfl)
      · have hold := hent (c.name, c0, js) hjs
        rw [h2, h1]
        constructor
        · simp only [List.map_append, List.map_cons, List.map_nil]
          rw [List.nodup_append]
          refine ⟨hold.1, by simp, ?_⟩
          intro x hx
          simp only [List.mem_singleton]
          rcases List.mem_map.mp hx with ⟨j0, hj0, hx2⟩
          intro hxx
          apply hid
          rw [← hxx, ← hx2]
          exact hold.2 j0 hj0
        · intro j' hj'
          rw [lookupD_addId_self _ _ _ (containsKey_touchKey_self _ _), lookupD_touchKey]
          rcases List.mem_append.mp hj' with h3 | h3
          · exact List.mem_append_left _ (hold.2 j' h3)
          · simp only [List.mem_singleton] at h3
            subst h3
            exact List.mem_append_right _ (List.mem_singleton.mpr rfl)

theorem foldl_inv (rj : List (Company × JobPosting)) (st : DiffState) (h : DiffInv st) :
    DiffInv (rj.foldl diffStep st) := by
  induction rj generalizing st with
  | nil => exact h
  | cons p rest ih =>
    simp only [List.foldl_cons]
    exact ih _ (diffStep_inv st p h)

/-- C1, counterexample to the claim as stated: the scrape yields two relevant
postings for the same company with the same id; the second posting's id is not
in the previously seen (empty) map, yet the second posting is not reported, so
"reported iff job.id is not in the previously seen set" fails at that scraped
job. -/
theorem C1_counterexample :
    get_relevant_jobs exEnvDup none none ["great"] =
      .ok ⟨[(exCompany, exJob1), (exCompany, exJob2)], [], [], []⟩ ∧
    get_new_relevant_jobs exEnvDup [] none none ["great"] =
      .ok ⟨[("Acme", exCompany, [exJob1])], [("Acme", ["1"])], [], []⟩ ∧
    ¬(exJob2.id ∈ lookupD [] exCompany.name) ∧
    ¬(exJob2 ∈ jobsOf [("Acme", exCompany, [exJob1])] exCompany.name) :=
  ⟨rfl, rfl, by decide, by decide⟩

/-- C1 as amended: provided the scraped relevant jobs carry pairwise-distinct
(company name, job id) pairs, a scraped relevant job is reported under
`new_relevant_jobs[company.name]["jobs"]` exactly when its id is not in the
previously seen set of ids for that company (a missing company counting as the
empty set). -/
theorem C1_new_job_reported_iff_id_unseen (env : List (Company × FetchResult))
    (existing : List (String × List String)) (limit add : Option String)
    (cfg : List String) (r : ScrapeResult) (out : NewJobsResult)
    (c : Company) (job : JobPosting)
    (hscrape : get_relevant_jobs env limit add cfg = .ok r)
    (hnd : (r.relevant_jobs.map (fun p => (p.1.name, p.2.id))).Nodup)
    (hmem : (c, job) ∈ r.relevant_jobs)
    (hrun : get_new_relevant_jobs env existing limit add cfg = .ok out) :
    job ∈ jobsOf out.new_relevant_jobs c.name ↔ ¬(job.id ∈ lookupD existing c.name) := by
  unfold get_new_relevant_jobs at hrun
  rw [hscrape] at hrun
  simp only at hrun
  cases hrun
  unfold diffNewJobs
  constructor
  · intro h
    rcases jobsOf_foldl_fwd _ _ _ _ h with h1 | ⟨c', _, _, h3⟩
    · rw [jobsOf_nil] at h1
      cases h1
    · intro hin
      apply h3
      show job.id ∈ lookupD (existing.map (fun p => (p.1, p.2.dedup))) c.name
      rw [lookupD_map_dedup]
      exact List.mem_dedup.mpr hin
  · intro h
    apply jobsOf_foldl_bwd _ _ _ _ hmem _ hnd
    show ¬(job.id ∈ lookupD (existing.map (fun p => (p.1, p.2.dedup))) c.name)
    rw [lookupD_map_dedup]
    intro hin
    exact h (List.mem_dedup.mp hin)

theorem C1_witness :
    exJob1 ∈ jobsOf (NewJobsResult.mk [("Acme", exCompany, [exJob1])]
        [("Acme", ["1"])] [] []).new_relevant_jobs exCompany.name ↔
      ¬(exJob1.id ∈ lookupD [] exCompany.name) :=
  C1_new_job_reported_iff_id_unseen exEnv [] none none ["great"]
    ⟨[(exCompany, exJob1)], [], [], []⟩
    ⟨[("Acme", exCompany, [exJob1])], [("Acme", ["1"])], [], []⟩
    exCompany exJob1 rfl (by decide) (by decide) rfl

/-- C10: within a single run, a (company, job id) pair is reported at most
once — the company-name keys of `new_relevant_jobs` are unique and each
company's reported job ids are duplicate-free, because each id is inserted
into the seen set as it is processed. -/
theorem C10_no_duplicate_ids_per_company (env : List (Company × FetchResult))
    (existing : List (String × List String)) (limit add : Option String)
    (cfg : List String) (out : NewJobsResult)
    (hrun : get_new_relevant_jobs env existing limit add cfg = .ok out) :
    ((out.new_relevant_jobs.map (fun e => e.1)).Nodup) ∧
    ∀ e ∈ out.new_relevant_jobs, ((e.2.2.map (fun j => j.id)).Nodup) := by
  unfold get_new_relevant_jobs at hrun
  cases hscrape : get_relevant_jobs env limit add cfg with
  | error e => rw [hscrape] at hrun; cases hrun
  | ok r =>
    rw [hscrape] at hrun
    simp only at hrun
    cases hrun
    have hinv := foldl_inv r.relevant_jobs ⟨existing.map (fun p => (p.1, p.2.dedup)), []⟩
      ⟨by simp, by simp⟩
    unfold diffNewJobs
    exact ⟨hinv.1, fun e he => (hinv.2 e he).1⟩

theorem C10_witness :
    (((NewJobsResult.mk [("Acme", exCompany, [exJob1])] [("Acme", ["1"])] []
        []).new_relevant_jobs.map (fun e => e.1)).Nodup) ∧
    ∀ e ∈ (NewJobsResult.mk [("Acme", exCompany, [exJob1])] [("Acme", ["1"])] []
        []).new_relevant_jobs, ((e.2.2.map (fun j => j.id)).Nodup) :=
  C10_no_duplicate_ids_per_company exEnvDup [] none none ["great"]
    ⟨[("Acme", exCompany, [exJob1])], [("Acme", ["1"])], [], []⟩ rfl

/-- C8: the seen-ids map only grows — every company key of the input map is a
key of the returned `existing_relevant_jobs`, every id stored under it is still
stored under it, and every returned per-company list is duplicate-free and
sorted in Python string order. -/
theorem C8_seen_map_grows_sorted_dedup (env : List (Company × FetchResult))
    (existing : List (String × List String)) (limit add : Option String)
    (cfg : List String) (out : NewJobsResult)
    (hkeys : (existing.map (fun p => p.1)).Nodup)
    (hrun : get_new_relevant_jobs env existing limit add cfg = .ok out) :
    (∀ p ∈ existing, ∃ q ∈ out.existing_relevant_jobs, q.1 = p.1 ∧ ∀ x ∈ p.2, x ∈ q.2) ∧
    (∀ q ∈ out.existing_relevant_jobs, q.2.Nodup ∧
      List.Sorted (fun a b => leStr a b = true) q.2) := by
  unfold get_new_relevant_jobs at hrun
  cases hscrape : get_relevant_jobs env limit add cfg with
  | error e => rw [hscrape] at hrun; cases hrun
  | ok r =>
    rw [hscrape] at hrun
    simp only at hrun
    cases hrun
    unfold diffNewJobs
    constructor
    · intro p hp
      obtain ⟨pk, pv⟩ := p
      have hmemmap : (pk, pv.dedup) ∈ existing.map (fun p => (p.1, p.2.dedup)) :=
        List.mem_map.mpr ⟨(pk, pv), hp, rfl⟩
      have hkeys2 : ((existing.map (fun p => (p.1, p.2.dedup))).map (fun p => p.1)).Nodup := by
        rw [List.map_map]
        exact hkeys
      have hck : containsKey
          ((⟨existing.map (fun p => (p.1, p.2.dedup)), []⟩ : DiffState).seen) pk = true :=
        containsKey_of_mem _ _ _ hmemmap
      have hckf := containsKey_foldl r.relevant_jobs _ _ hck
      have hmem2 := mem_of_containsKey _ _ hckf
      refine ⟨_, List.mem_map.mpr ⟨_, hmem2, rfl⟩, rfl, ?_⟩
      intro x hx
      apply mem_sortedSet
      apply mem_lookupD_foldl
      show x ∈ lookupD (existing.map (fun p => (p.1, p.2.dedup))) pk
      have hlk : lookupD (existing.map (fun p => (p.1, p.2.dedup))) pk = pv.dedup :=
        lookupD_of_mem_nodup _ _ _ hkeys2 hmemmap
      rw [hlk]
      exact List.mem_dedup.mpr hx
    · intro q hq
      rcases List.mem_map.mp hq with ⟨p0, _, hq2⟩
      rw [← hq2]
      exact ⟨sortedSet_nodup _, sortedSet_sorted _⟩

theorem C8_witness :
    (∀ p ∈ [("Acme", ["0"])], ∃ q ∈ (NewJobsResult.mk [("Acme", exCompany, [exJob1])]
        [("Acme", ["0", "1"])] [] []).existing_relevant_jobs,
      q.1 = p.1 ∧ ∀ x ∈ p.2, x ∈ q.2) ∧
    (∀ q ∈ (NewJobsResult.mk [("Acme", exCompany, [exJob1])] [("Acme", ["0", "1"])] []
        []).existing_relevant_jobs, q.2.Nodup ∧
      List.Sorted (fun a b => leStr a b = true) q.2) :=
  C8_seen_map_grows_sorted_dedup exEnv [("Acme", ["0"])] none none ["great"]
    ⟨[("Acme", exCompany, [exJob1])], [("Acme", ["0", "1"])], [], []⟩ (by decide) rfl
